import Mathlib

/-!
Verification of the balance-accounting core of `uuid-entitlement-manager`.

The repository stores one SQLite table `users(uuid PRIMARY KEY, user_agent,
balance, last_awarded)` plus reference tables for purchase packs and coupons.
We embed the table as a list of records and each Python database function as a
Lean function over that list, mirroring the SQL statement by statement.
Python falsy-identifier checks (`if not user_uuid`) are modelled by comparison
with the empty string.
-/

set_option autoImplicit false

namespace Database

/-- One row of the `users` table (`src/database.py`, `init_db`):
`uuid TEXT PRIMARY KEY, user_agent TEXT, balance INTEGER, last_awarded INTEGER`. -/
structure UserRecord where
  uuid : String
  user_agent : String
  balance : Int
  last_awarded : Int
deriving Repr, DecidableEq

/-- The `users` table, as the list of its rows. `uuid` is the primary key, so a
well-formed table never holds two rows with the same `uuid`; theorems that need
this state it as a hypothesis. -/
abbrev DB := List UserRecord

/-- Result of `SELECT ... FROM users WHERE uuid = ?` followed by `fetchone()`:
the first row whose key matches, if any. -/
def findUser (db : DB) (u : String) : Option UserRecord :=
  db.find? (fun r => r.uuid == u)

/-- Python `src/database.py::get_balance`: returns 0 for a missing (falsy) uuid,
otherwise `SELECT balance WHERE uuid = ?`, returning the row's balance when a
row exists and 0 when none does.  Database errors are caught and also yield 0;
the function never raises. -/
def get_balance (db : DB) (u : String) : Int :=
  if u = "" then 0
  else
    match findUser db u with
    | some r => r.balance
    | none => 0

/-- Effect of the SQL statement
`UPDATE users SET balance = balance + ? WHERE uuid = ?` on the table. -/
def updRows (db : DB) (u : String) (delta : Int) : DB :=
  db.map (fun r => if r.uuid == u then { r with balance := r.balance + delta } else r)

/-- Python `src/database.py::update_balance`: rejects a falsy uuid or a zero
`balance_change` up front (returning `None` with no database access); otherwise
runs `UPDATE users SET balance = balance + ? WHERE uuid = ?` in a transaction,
rolls back and returns `None` when the rowcount is 0, else commits and returns
the freshly selected balance.  Returns the new table and the Python return
value (`none` models Python `None`). -/
def update_balance (db : DB) (u : String) (delta : Int) : DB × Option Int :=
  if u = "" ∨ delta = 0 then (db, none)
  else if db.countP (fun r => r.uuid == u) = 0 then (db, none)
  else
    match findUser (updRows db u delta) u with
    | some r => (updRows db u delta, some r.balance)
    | none => (updRows db u delta, none)

/-- Python `src/database.py::use_balance`: returns `False` for a falsy uuid;
otherwise reads the balance with `get_balance`, and when it is positive calls
`update_balance(uuid, -1)`, reporting `True` exactly when that call returned a
recorded new balance (not `None`). -/
def use_balance (db : DB) (u : String) : DB × Bool :=
  if u = "" then (db, false)
  else if get_balance db u > 0 then
    ((update_balance db u (-1)).1, (update_balance db u (-1)).2.isSome)
  else (db, false)

/-- Python `src/database.py::get_last_awarded`: 0 for a falsy uuid or a missing
row, otherwise the row's `last_awarded`. -/
def get_last_awarded (db : DB) (u : String) : Int :=
  if u = "" then 0
  else
    match findUser db u with
    | some r => r.last_awarded
    | none => 0

/-- Python `src/database.py::update_last_awarded`:
`UPDATE users SET last_awarded = ? WHERE uuid = ?` (no-op on a falsy uuid or
when no row matches). -/
def update_last_awarded (db : DB) (u : String) (t : Int) : DB :=
  if u = "" then db
  else db.map (fun r => if r.uuid == u then { r with last_awarded := t } else r)

/-- Python `src/database.py::add_user_record`: returns with no write when the
uuid is falsy; `INSERT INTO users (uuid, user_agent, balance, last_awarded)`
otherwise.  When a row with the same primary key already exists the INSERT
raises `sqlite3.IntegrityError`, which the function catches and logs, leaving
the table unchanged. -/
def add_user_record (db : DB) (u ua : String) (starting_balance now : Int) : DB :=
  if u = "" then db
  else if (findUser db u).isSome then db
  else db ++ [⟨u, ua, starting_balance, now⟩]

/-- Python `src/database.py::generate_uuid`: draws a fresh UUID4 string, hashes
the user agent with SHA-256, inserts the record via `add_user_record` with the
given starting balance and `last_awarded = int(time.time())`, and returns the
drawn id.  The random draw and the hash are inputs of the model (`newId`,
`hashedUA`); the Python default for `starting_balance` is
`default_starting_balance`. -/
def generate_uuid (db : DB) (hashedUA : String) (newId : String) (now : Int)
    (starting_balance : Int) : DB × String :=
  (add_user_record db newId hashedUA starting_balance now, newId)

/-- Default value of the `starting_balance` parameter of
`src/database.py::generate_uuid`. -/
def default_starting_balance : Int := 10

/-- Python `src/database.py::clear_all_balances` (identical in
`src/admin/admin_database.py`): `UPDATE users SET balance = 0`. -/
def clear_all_balances (db : DB) : DB :=
  db.map (fun r => { r with balance := 0 })

end Database

namespace Utils

open Database

/-- Python `src/utils.py::get_balance` (identical logic in
`src/utils/utils.py::get_balance`, the free-grant scheduler): loads
`last_awarded`; when `now - last_awarded >= interval` it calls
`database.update_balance(uuid, amount)` (result ignored) and
`database.update_last_awarded(uuid, now)`; it then reads the balance with
`database.get_balance` and returns it.  `now` models `int(time.time())`,
`interval` the env var `FREE_BALANCE_INTERVAL` (default 86400) and `amount`
the env var `FREE_BALANCE` (default 10).  `award_if_eligible` is the state
effect of the conditional award block; `get_balance` pairs it with the final
balance read. -/
def award_if_eligible (db : DB) (u : String) (now interval amount : Int) : DB :=
  if now - Database.get_last_awarded db u ≥ interval then
    Database.update_last_awarded (Database.update_balance db u amount).1 u now
  else db

/-- The full function `src/utils.py::get_balance`: the table after the optional
award, and the balance read from it. -/
def get_balance (db : DB) (u : String) (now interval amount : Int) : DB × Int :=
  (award_if_eligible db u now interval amount,
   Database.get_balance (award_if_eligible db u now interval amount) u)

/-- One purchase pack as parsed by `src/utils.py::parse_purchase_packs` from
the `PURCHASE_PACKS` environment variable (`PACK_NAME:APPLICABLE_COUPONS:SIZE`):
the list of coupon codes applicable to the pack, and the pack size. -/
structure PackInfo where
  applicable_coupons : List String
  size : Int
deriving Repr, DecidableEq

/-- Lookup in a Python dict, modelled as an association list (`d.get(k)` /
`k in d` + `d[k]`). -/
def lookupS {α : Type} (l : List (String × α)) (k : String) : Option α :=
  (l.find? (fun p => p.1 == k)).map (fun p => p.2)

/-- Python `src/utils.py::validate_coupon`: looks the code up in the parsed
coupon dict; when present, a coupon is accepted exactly when the selected pack
is in the parsed pack dict and the code appears in that pack's
`applicable_coupons`; every other outcome (unknown coupon, unknown pack, code
not applicable) yields `(False, 0)`.  The catalogs parsed from the `COUPONS`
and `PURCHASE_PACKS` environment variables are inputs of the model. -/
def validate_coupon (coupons : List (String × Int)) (packs : List (String × PackInfo))
    (coupon_code balance_pack : String) : Bool × Int :=
  match lookupS coupons coupon_code with
  | some discount =>
    match lookupS packs balance_pack with
    | some pinfo =>
      if coupon_code ∈ pinfo.applicable_coupons then (true, discount) else (false, 0)
    | none => (false, 0)
  | none => (false, 0)

end Utils

namespace UtilsV2

open Utils

/-- A Python exception class, for the variant in `src/utils/utils.py` whose
`except Exception` clauses are reachable. -/
inductive PyError where
  | typeError
  | keyError
deriving Repr, DecidableEq

/-- The call `parse_coupons('COUPONS')` made by
`src/utils/utils.py::validate_coupon` (line 221).  In that file
`parse_coupons` is declared as
`def parse_coupons(env_var, currency_unit, separator=";", key_value_separator=":")`:
`currency_unit` has no default, so the one-argument call raises
`TypeError: parse_coupons() missing 1 required positional argument` before the
parser body runs. -/
def parse_coupons_one_arg : Except PyError (List (String × Int)) :=
  Except.error PyError.typeError

/-- One purchase pack as built by `src/utils/utils.py::parse_purchase_packs`:
that variant stores only `{"size": size}` — there is no `applicable_coupons`
key in its pack dicts. -/
structure PackInfoV2 where
  size : Int
deriving Repr, DecidableEq

/-- The call `parse_purchase_packs('PURCHASE_PACKS')` made by
`src/utils/utils.py::validate_coupon` (line 224).  In that file
`parse_purchase_packs` is declared as
`def parse_purchase_packs(env_var, currency_unit, balance_type, separator=";", key_value_separator=":")`,
so the one-argument call raises `TypeError` as well. -/
def parse_purchase_packs_one_arg : Except PyError (List (String × PackInfoV2)) :=
  Except.error PyError.typeError

/-- Subscript `pack["applicable_coupons"]` on a pack dict of this variant:
the key is never present (`parse_purchase_packs` stores only `size`), so the
access raises `KeyError`. -/
def pack_applicable_coupons (_p : PackInfoV2) : Except PyError (List String) :=
  Except.error PyError.keyError

/-- Body of the `try:` block of `src/utils/utils.py::validate_coupon`,
translated statement by statement; any raised exception aborts the block. -/
def validate_coupon_try (coupon_code balance_pack : String) :
    Except PyError (Bool × Int) := do
  let coupons ← parse_coupons_one_arg
  match lookupS coupons coupon_code with
  | some discount =>
    let packs ← parse_purchase_packs_one_arg
    match lookupS packs balance_pack with
    | some pinfo =>
      let appl ← pack_applicable_coupons pinfo
      if coupon_code ∈ appl then pure (true, discount) else pure (false, 0)
    | none => pure (false, 0)
  | none => pure (false, 0)

/-- Python `src/utils/utils.py::validate_coupon`: runs the `try:` body; the
enclosing `except Exception` logs any exception and returns `(False, 0)`. -/
def validate_coupon (coupon_code balance_pack : String) : Bool × Int :=
  match validate_coupon_try coupon_code balance_pack with
  | Except.ok r => r
  | Except.error _ => (false, 0)

end UtilsV2

namespace Race

/-!
Interleaving model for two concurrent `use_balance` calls against one existing
account (uuid nonempty, so the falsy-uuid guard never fires).  `use_balance`
performs two atomic storage operations in sequence:

  1. `get_balance` — one `SELECT`, reading the shared balance;
  2. `update_balance(uuid, -1)` — one `BEGIN .. UPDATE .. COMMIT` transaction
     followed by a `SELECT` of the new balance.  Because the account exists and
     the delta is nonzero, the rowcount is positive and the call always returns
     a recorded balance (never `None`), so the caller reports success.

We model each operation as one atomic step (granting the code even more
atomicity than SQLite does: the trailing `SELECT` is folded into the update
step, which cannot affect the success bit since the returned row always
exists).  The scheduler interleaves the steps of the two calls arbitrarily.
-/

/-- Progress of one `use_balance` call: not yet started, balance read
(remembering the value the `SELECT` returned), or finished with a result. -/
inductive Phase where
  | ready : Phase
  | readDone : Int → Phase
  | finished : Bool → Phase
deriving Repr, DecidableEq

/-- One atomic step of a `use_balance` call, given the shared balance of the
account: first the read, then — when the remembered read was positive — the
decrementing update (which always reports success for an existing account),
otherwise immediate failure. -/
def stepThread (bal : Int) (p : Phase) : Int × Phase :=
  match p with
  | Phase.ready => (bal, Phase.readDone bal)
  | Phase.readDone b =>
    if b > 0 then (bal - 1, Phase.finished true) else (bal, Phase.finished false)
  | Phase.finished r => (bal, Phase.finished r)

/-- Shared balance plus the progress of the two concurrent calls. -/
structure RaceState where
  bal : Int
  first : Phase
  second : Phase
deriving Repr, DecidableEq

/-- Let the chosen call (`false` = first, `true` = second) perform its next
atomic step. -/
def schedStep (s : RaceState) (choice : Bool) : RaceState :=
  if choice then
    { s with bal := (stepThread s.bal s.second).1, second := (stepThread s.bal s.second).2 }
  else
    { s with bal := (stepThread s.bal s.first).1, first := (stepThread s.bal s.first).2 }

/-- Run a schedule (a list of choices) from a state. -/
def runSched (s : RaceState) : List Bool → RaceState
  | [] => s
  | c :: rest => runSched (schedStep s c) rest

/-- Both calls about to start against an account holding balance `b`. -/
def initRace (b : Int) : RaceState :=
  { bal := b, first := Phase.ready, second := Phase.ready }

end Race

namespace F64

/-!
Exact model of IEEE 754 binary64 round-to-nearest-even on the rationals, for
the purchase-credit computation in `src/app.py::buy_balance`:

    balance_to_add = PURCHASE_PACKS[balance_pack]["size"]
    balance_to_add -= int(balance_to_add * (discount / 100))

`discount / 100` is Python float division of two ints (the correctly rounded
binary64 quotient) and `balance_to_add * (...)` multiplies after converting
the int to binary64 (exact for |size| < 2^53, which the theorems assume).
The model covers the normal, finite range, which contains every value these
expressions can take for the sizes and discounts under consideration;
subnormals and overflow are outside the modelled range.
-/

/-- Binary exponent of a positive rational: the unique `e` with
`2 ^ e ≤ q < 2 ^ (e + 1)` (see `floorLog2_le` and `lt_floorLog2_succ`). -/
def floorLog2 (q : ℚ) : ℤ :=
  let k : ℤ := (Nat.log2 q.num.toNat : ℤ) - (Nat.log2 q.den : ℤ)
  if (2 : ℚ) ^ k ≤ q then k else k - 1

/-- Round a rational to the nearest integer, ties to even. -/
def roundHalfEven (q : ℚ) : ℤ :=
  if q - ⌊q⌋ < 1 / 2 then ⌊q⌋
  else if 1 / 2 < q - ⌊q⌋ then ⌊q⌋ + 1
  else if 2 ∣ ⌊q⌋ then ⌊q⌋ else ⌊q⌋ + 1

/-- Round a positive rational to the binary64 grid: the significand carries 53
bits, so representable values near `q` are the integer multiples of
`2 ^ (floorLog2 q - 52)`. -/
def roundPos (q : ℚ) : ℚ :=
  (roundHalfEven (q / 2 ^ (floorLog2 q - 52)) : ℚ) * 2 ^ (floorLog2 q - 52)

/-- Round-to-nearest-even of a rational value to binary64 (sign-symmetric,
normal range). -/
def roundDouble (q : ℚ) : ℚ :=
  if q = 0 then 0
  else if 0 < q then roundPos q
  else -(roundPos (-q))

/-- Python `a / b` on ints: true division producing the correctly rounded
binary64 quotient. -/
def pyDiv (a b : ℤ) : ℚ :=
  roundDouble ((a : ℚ) / (b : ℚ))

/-- Python `a * t` for an int `a` and a float `t`: `a` is converted to
binary64 (exact for |a| < 2^53) and the product is correctly rounded. -/
def pyMul (a : ℤ) (t : ℚ) : ℚ :=
  roundDouble ((a : ℚ) * t)

end F64

namespace App

open F64

/-- Python `src/app.py::buy_balance`, the credited amount (lines 122–124):
`balance_to_add = size; balance_to_add -= int(balance_to_add * (discount / 100))`.
Python `int()` truncates toward zero; the truncated operand is nonnegative for
the sizes and discounts under consideration, where truncation is `⌊·⌋`. -/
def buy_balance_credit (size discount : ℤ) : ℤ :=
  size - ⌊pyMul size (pyDiv discount 100)⌋

end App

/-- A concrete two-row `users` table used to instantiate theorems: account
`"a"` holds balance 5, account `"b"` holds balance 0. -/
def exdb : Database.DB :=
  [⟨"a", "ha", 5, 100⟩, ⟨"b", "hb", 0, 50⟩]

namespace Database

theorem findUser_eq_none_iff (db : DB) (u : String) :
    findUser db u = none ↔ ∀ r ∈ db, r.uuid ≠ u := by
  unfold findUser
  rw [List.find?_eq_none]
  constructor
  · intro h r hr
    have := h r hr
    simpa using this
  · intro h r hr
    simpa using h r hr

theorem countP_eq_zero_iff_findUser (db : DB) (u : String) :
    db.countP (fun r => r.uuid == u) = 0 ↔ findUser db u = none := by
  rw [List.countP_eq_zero, findUser_eq_none_iff]
  constructor
  · intro h r hr
    have := h r hr
    simpa using this
  · intro h r hr
    simpa using h r hr

theorem findUser_map_of_uuid_eq (db : DB) (u : String) (f : UserRecord → UserRecord)
    (hf : ∀ r, (f r).uuid = r.uuid) :
    findUser (db.map f) u = (findUser db u).map f := by
  induction db with
  | nil => rfl
  | cons r rest ih =>
    by_cases h : r.uuid = u
    · simp [findUser, List.find?, hf, h]
    · simp only [findUser, List.map_cons, List.find?] at ih ⊢
      rw [show (((f r).uuid == u) = false) by simp [hf, h],
        show ((r.uuid == u) = false) by simp [h]]
      exact ih

theorem findUser_updRows (db : DB) (u : String) (delta : Int) (rec : UserRecord)
    (hfind : findUser db u = some rec) :
    findUser (updRows db u delta) u = some { rec with balance := rec.balance + delta } := by
  have hrec : rec.uuid = u := by
    have h := List.find?_some hfind
    simpa using h
  unfold updRows
  rw [findUser_map_of_uuid_eq db u _ (fun r => by by_cases h : r.uuid == u <;> simp [h]), hfind]
  simp [hrec]

/-- Evaluating `update_balance` on an existing account with a legal (nonzero)
delta: the matching row's balance is shifted by `delta` and the returned value
records the new balance of the row. -/
theorem update_balance_found (db : DB) (u : String) (delta : Int) (rec : UserRecord)
    (hu : u ≠ "") (hδ : delta ≠ 0) (hfind : findUser db u = some rec) :
    update_balance db u delta = (updRows db u delta, some (rec.balance + delta)) := by
  have hcount : db.countP (fun r => r.uuid == u) ≠ 0 := by
    intro h0
    rw [countP_eq_zero_iff_findUser] at h0
    rw [h0] at hfind
    exact Option.noConfusion hfind
  unfold update_balance
  rw [if_neg (by simp [hu, hδ]), if_neg hcount, findUser_updRows db u delta rec hfind]

/-- Evaluating `update_balance` when no row matches: nothing changes and the
call reports `none`. -/
theorem update_balance_not_found (db : DB) (u : String) (delta : Int)
    (hfind : findUser db u = none) :
    update_balance db u delta = (db, none) := by
  unfold update_balance
  by_cases hguard : u = "" ∨ delta = 0
  · rw [if_pos hguard]
  · rw [if_neg hguard, if_pos ((countP_eq_zero_iff_findUser db u).mpr hfind)]

theorem get_balance_found (db : DB) (u : String) (rec : UserRecord)
    (hu : u ≠ "") (hfind : findUser db u = some rec) :
    get_balance db u = rec.balance := by
  unfold get_balance
  rw [if_neg hu, hfind]

end Database

/-- Claim C9: for every id with no account record (including the missing/empty
id), `get_balance` returns 0.  The embedded function is total — the Python
original catches every `sqlite3.Error` and returns 0 — and is a pure read, so
it modifies no account state. -/
theorem C9_get_balance_unknown_id (db : Database.DB) (u : String)
    (h : u = "" ∨ Database.findUser db u = none) :
    Database.get_balance db u = 0 := by
  unfold Database.get_balance
  rcases h with h | h
  · rw [if_pos h]
  · by_cases hu : u = ""
    · rw [if_pos hu]
    · rw [if_neg hu, h]

theorem C9_get_balance_unknown_id_witness :
    Database.get_balance exdb "nobody" = 0 :=
  C9_get_balance_unknown_id exdb "nobody" (Or.inr (by decide))

/-- Claim C10: `update_balance` with delta 0 returns the same failure signal
(`None`) as for a nonexistent account and leaves every balance unchanged, even
when an account with the given id exists: the zero delta is rejected by the
parameter guard before any database access. -/
theorem C10_update_balance_zero_delta (db : Database.DB) (u : String) :
    Database.update_balance db u 0 = (db, none) := by
  unfold Database.update_balance
  rw [if_pos (Or.inr rfl)]

/-- Claim C8: `clear_all_balances` keeps the number of rows (no account is
created or deleted) and maps every row to the same row with balance 0 — its
`uuid`, `user_agent` (fingerprint) and `last_awarded` are unchanged. -/
theorem C8_clear_all_balances_spec (db : Database.DB) :
    (Database.clear_all_balances db).length = db.length ∧
    ∀ i : ℕ, (Database.clear_all_balances db).get? i
      = (db.get? i).map (fun r => { r with balance := 0 }) := by
  constructor
  · simp [Database.clear_all_balances]
  · intro i
    simp [Database.clear_all_balances, List.getElem?_map]

/-- Claim C2: a sequential `use_balance` call reads the current balance; for an
existing account with positive balance it applies `update_balance(uuid, -1)` —
which records the decremented balance — and returns `True`; for balance ≤ 0,
and equally for an unknown id, it returns `False` and leaves the table
unchanged. -/
theorem C2_use_balance_spec (db : Database.DB) (u : String) :
    (∀ row : Database.UserRecord, u ≠ "" → Database.findUser db u = some row →
      (row.balance > 0 →
        Database.use_balance db u = (Database.updRows db u (-1), true) ∧
        Database.findUser (Database.updRows db u (-1)) u
          = some { row with balance := row.balance - 1 }) ∧
      (row.balance ≤ 0 → Database.use_balance db u = (db, false))) ∧
    (Database.findUser db u = none → Database.use_balance db u = (db, false)) := by
  constructor
  · intro row hu hfind
    have hb := Database.get_balance_found db u row hu hfind
    constructor
    · intro hpos
      have hupd := Database.update_balance_found db u (-1) row hu (by decide) hfind
      constructor
      · unfold Database.use_balance
        rw [if_neg hu, if_pos (by rw [hb]; exact hpos), hupd]
        rfl
      · have h := Database.findUser_updRows db u (-1) row hfind
        simpa [sub_eq_add_neg] using h
    · intro hnonpos
      unfold Database.use_balance
      rw [if_neg hu, if_neg (by rw [hb]; omega)]
  · intro hnone
    unfold Database.use_balance
    by_cases hu : u = ""
    · rw [if_pos hu]
    · have h0 : Database.get_balance db u = 0 := by
        unfold Database.get_balance
        rw [if_neg hu, hnone]
      rw [if_neg hu, if_neg (by rw [h0]; decide)]

theorem C2_use_balance_spec_witness :
    Database.use_balance exdb "a" = (Database.updRows exdb "a" (-1), true) :=
  ((((C2_use_balance_spec exdb "a").1 ⟨"a", "ha", 5, 100⟩ (by decide) rfl)).1 (by decide)).1

/-- Claim C3 counterexample: account `"a"` exists in `exdb` (balance 5), yet
`update_balance exdb "a" 0` returns the not-found signal `None` instead of the
new balance `5 + 0`, so the claim as stated — `adjustBalance(id, delta)`
returns the new balance whenever an account with that id exists, for every
delta — is false at delta 0. -/
theorem C3_counterexample :
    Database.findUser exdb "a" = some ⟨"a", "ha", 5, 100⟩ ∧
    Database.update_balance exdb "a" 0 = (exdb, none) :=
  ⟨rfl, rfl⟩

/-- Claim C3 (amended): in the `src/database.py` variant, for every nonempty id
and every nonzero delta, `update_balance` sets the matching account's balance
to `balance + delta` and returns the new balance when the account exists,
leaving every other row unchanged; when no account matches it returns `None`
and changes nothing; and a zero delta (or empty id) is rejected before any
database access with that same `None` signal and no change. -/
theorem C3_amended_update_balance (db : Database.DB) (u : String) (δ : Int) :
    (∀ row : Database.UserRecord, u ≠ "" → δ ≠ 0 → Database.findUser db u = some row →
      Database.update_balance db u δ = (Database.updRows db u δ, some (row.balance + δ)) ∧
      Database.findUser (Database.updRows db u δ) u
        = some { row with balance := row.balance + δ } ∧
      (Database.updRows db u δ).length = db.length ∧
      ∀ i : ℕ, ∀ r : Database.UserRecord,
        db.get? i = some r → r.uuid ≠ u → (Database.updRows db u δ).get? i = some r) ∧
    (Database.findUser db u = none → Database.update_balance db u δ = (db, none)) ∧
    (u = "" ∨ δ = 0 → Database.update_balance db u δ = (db, none)) := by
  refine ⟨?_, ?_, ?_⟩
  · intro row hu hδ hfind
    refine ⟨Database.update_balance_found db u δ row hu hδ hfind,
      Database.findUser_updRows db u δ row hfind, by simp [Database.updRows], ?_⟩
    intro i r hr hru
    have hmap : (Database.updRows db u δ).get? i
        = (db.get? i).map
          (fun r => if r.uuid == u then { r with balance := r.balance + δ } else r) := by
      simp [Database.updRows, List.getElem?_map]
    rw [hmap, hr]
    simp [hru]
  · exact Database.update_balance_not_found db u δ
  · intro h
    unfold Database.update_balance
    rw [if_pos h]

theorem C3_amended_update_balance_witness :
    Database.update_balance exdb "a" 3 = (Database.updRows exdb "a" 3, some 8) :=
  ((C3_amended_update_balance exdb "a" 3).1 ⟨"a", "ha", 5, 100⟩ (by decide) (by decide) rfl).1

namespace Database

theorem get_last_awarded_found (db : DB) (u : String) (row : UserRecord)
    (hu : u ≠ "") (hfind : findUser db u = some row) :
    get_last_awarded db u = row.last_awarded := by
  unfold get_last_awarded
  rw [if_neg hu, hfind]

theorem findUser_update_last_awarded (db : DB) (u : String) (t : Int) (row : UserRecord)
    (hu : u ≠ "") (hfind : findUser db u = some row) :
    findUser (update_last_awarded db u t) u = some { row with last_awarded := t } := by
  have hrow : row.uuid = u := by
    have h := List.find?_some hfind
    simpa using h
  unfold update_last_awarded
  rw [if_neg hu, findUser_map_of_uuid_eq db u _ (fun r => by by_cases h : r.uuid == u <;> simp [h]),
    hfind]
  simp [hrow]

theorem update_balance_zero (db : DB) (u : String) :
    update_balance db u 0 = (db, none) := by
  unfold update_balance
  rw [if_pos (Or.inr rfl)]

theorem findUser_append_of_none (db : DB) (u : String) (l : DB)
    (hnone : findUser db u = none) :
    findUser (db ++ l) u = findUser l u := by
  unfold findUser at hnone ⊢
  rw [List.find?_append, hnone]
  rfl

end Database

/-- Claim C7: in `src/utils.py::validate_coupon` a coupon is accepted, with its
discount, exactly when it exists in the parsed coupon catalog and the selected
pack exists with the coupon in its `applicable_coupons`; every other input
yields `(False, 0)`, never an error.  The duplicated variant
`src/utils/utils.py::validate_coupon` instead returns `(False, 0)` for every
input — its call `parse_coupons('COUPONS')` omits the required
`currency_unit` parameter of the `parse_coupons` defined in the same file, so
a `TypeError` is raised and swallowed by the blanket `except` before any
coupon is ever examined.  The theorem evaluates both variants on the same
catalog (coupon `SAVE10`, discount 10, applicable to `pack_a` of size 100):
the claimed behavior holds for `src/utils.py` and fails for
`src/utils/utils.py`. -/
theorem C7_validate_coupon_variants :
    Utils.validate_coupon [("SAVE10", 10)] [("pack_a", ⟨["SAVE10"], 100⟩)]
      "SAVE10" "pack_a" = (true, 10) ∧
    Utils.validate_coupon [("SAVE10", 10)] [("pack_a", ⟨["SAVE10"], 100⟩)]
      "SAVE10" "pack_b" = (false, 0) ∧
    Utils.validate_coupon [("SAVE10", 10)] [("pack_a", ⟨["SAVE10"], 100⟩)]
      "SAVE20" "pack_a" = (false, 0) ∧
    UtilsV2.validate_coupon "SAVE10" "pack_a" = (false, 0) :=
  ⟨rfl, rfl, rfl, rfl⟩

/-- Claim C6: when the freshly drawn UUID4 string does not collide with an
existing row (the negligible-collision assumption the design relies on),
`generate_uuid` returns that previously-unused id, persists exactly one new
record with `balance = starting_balance` (Python default 10,
`default_starting_balance`) and `last_awarded = now`, keeps every existing
row, and `get_balance` on the returned id immediately afterwards equals the
starting balance. -/
theorem C6_generate_uuid_spec (db : Database.DB) (hashedUA newId : String) (now bal : Int)
    (hid : newId ≠ "") (hfresh : Database.findUser db newId = none) :
    (Database.generate_uuid db hashedUA newId now bal).2 = newId ∧
    (Database.generate_uuid db hashedUA newId now bal).1 = db ++ [⟨newId, hashedUA, bal, now⟩] ∧
    Database.findUser (Database.generate_uuid db hashedUA newId now bal).1 newId
      = some ⟨newId, hashedUA, bal, now⟩ ∧
    Database.get_balance (Database.generate_uuid db hashedUA newId now bal).1 newId = bal ∧
    Database.default_starting_balance = 10 := by
  have hrecord : Database.add_user_record db newId hashedUA bal now
      = db ++ [⟨newId, hashedUA, bal, now⟩] := by
    unfold Database.add_user_record
    rw [if_neg hid, hfresh]
    rfl
  have hgen : Database.generate_uuid db hashedUA newId now bal
      = (db ++ [⟨newId, hashedUA, bal, now⟩], newId) := by
    unfold Database.generate_uuid
    rw [hrecord]
  have hfind : Database.findUser (db ++ [⟨newId, hashedUA, bal, now⟩]) newId
      = some ⟨newId, hashedUA, bal, now⟩ := by
    rw [Database.findUser_append_of_none db newId _ hfresh]
    simp [Database.findUser]
  refine ⟨by rw [hgen], by rw [hgen], by rw [hgen]; exact hfind, ?_, rfl⟩
  rw [hgen]
  exact Database.get_balance_found _ newId _ hid hfind

theorem C6_generate_uuid_spec_witness :
    Database.get_balance (Database.generate_uuid exdb "hc" "c" 7 10).1 "c" = 10 :=
  (C6_generate_uuid_spec exdb "hc" "c" 7 10 (by decide) rfl).2.2.2.1

/-- Claim C1, evaluated at the racy schedule: starting from balance 1, let both
`use_balance` calls perform their `get_balance` read (each reads 1) before
either performs its decrementing `update_balance`.  Both calls report
success and the final balance is -1 — the claim (at most B = 1 successes,
exactly one `success=true`, final balance 0, balance never driven below 0)
fails on this interleaving, which the source's separate read-then-write
(`src/database.py::use_balance`: plain `SELECT`, then an unconditional
`UPDATE users SET balance = balance + ?` with no `AND balance > 0` guard)
does nothing to exclude. -/
theorem C1_concurrent_debits_race :
    Race.runSched (Race.initRace 1) [false, true, false, true]
      = { bal := -1, first := Race.Phase.finished true,
          second := Race.Phase.finished true } := by
  rfl

/-- Claim C4: for an existing account, when `now - last_awarded < interval`
the free-grant read returns the current balance and leaves the table
untouched; when `now - last_awarded ≥ interval` it adds `amount` to the
balance, sets `last_awarded = now`, and returns the refreshed balance
`balance + amount`; and a second call in quick succession (within `interval`
of the first) grants nothing further and returns the same balance. -/
theorem C4_free_grant_spec (db : Database.DB) (u : String) (row : Database.UserRecord)
    (now interval amount : Int)
    (hu : u ≠ "") (hfind : Database.findUser db u = some row) :
    (now - row.last_awarded < interval →
      Utils.get_balance db u now interval amount = (db, row.balance)) ∧
    (now - row.last_awarded ≥ interval →
      ∃ db' : Database.DB,
        Utils.get_balance db u now interval amount = (db', row.balance + amount) ∧
        Database.findUser db' u
          = some { row with balance := row.balance + amount, last_awarded := now } ∧
        ∀ now2 : Int, now2 - now < interval →
          Utils.get_balance db' u now2 interval amount = (db', row.balance + amount)) := by
  have hla := Database.get_last_awarded_found db u row hu hfind
  constructor
  · intro hlt
    have haward : Utils.award_if_eligible db u now interval amount = db := by
      unfold Utils.award_if_eligible
      rw [hla, if_neg (by omega)]
    unfold Utils.get_balance
    rw [haward, Database.get_balance_found db u row hu hfind]
  · intro hge
    by_cases hamount : amount = 0
    · subst hamount
      refine ⟨Database.update_last_awarded db u now, ?_, ?_, ?_⟩
      · have haward : Utils.award_if_eligible db u now interval 0
            = Database.update_last_awarded db u now := by
          unfold Utils.award_if_eligible
          rw [hla, if_pos (by omega), Database.update_balance_zero db u]
        unfold Utils.get_balance
        rw [haward,
          Database.get_balance_found _ u { row with last_awarded := now } hu
            (Database.findUser_update_last_awarded db u now row hu hfind)]
        simp
      · have h := Database.findUser_update_last_awarded db u now row hu hfind
        simpa using h
      · intro now2 hlt2
        have hfind2 := Database.findUser_update_last_awarded db u now row hu hfind
        have hla2 := Database.get_last_awarded_found _ u _ hu hfind2
        have haward2 : Utils.award_if_eligible (Database.update_last_awarded db u now) u
            now2 interval 0 = Database.update_last_awarded db u now := by
          unfold Utils.award_if_eligible
          rw [hla2, if_neg (by simpa using hlt2)]
        unfold Utils.get_balance
        rw [haward2, Database.get_balance_found _ u _ hu hfind2]
        simp
    · have hupd := Database.update_balance_found db u amount row hu hamount hfind
      have hfind1 := Database.findUser_updRows db u amount row hfind
      have hfind2 := Database.findUser_update_last_awarded _ u now _ hu hfind1
      refine ⟨Database.update_last_awarded (Database.updRows db u amount) u now, ?_, ?_, ?_⟩
      · have haward : Utils.award_if_eligible db u now interval amount
            = Database.update_last_awarded (Database.updRows db u amount) u now := by
          unfold Utils.award_if_eligible
          rw [hla, if_pos (by omega), hupd]
        unfold Utils.get_balance
        rw [haward, Database.get_balance_found _ u _ hu hfind2]
      · exact hfind2
      · intro now2 hlt2
        have hla2 := Database.get_last_awarded_found _ u _ hu hfind2
        have haward2 : Utils.award_if_eligible
            (Database.update_last_awarded (Database.updRows db u amount) u now) u
            now2 interval amount
            = Database.update_last_awarded (Database.updRows db u amount) u now := by
          unfold Utils.award_if_eligible
          rw [hla2, if_neg (by simpa using hlt2)]
        unfold Utils.get_balance
        rw [haward2, Database.get_balance_found _ u _ hu hfind2]

theorem C4_free_grant_spec_witness :
    Utils.get_balance exdb "a" 150 86400 10 = (exdb, 5) :=
  (C4_free_grant_spec exdb "a" ⟨"a", "ha", 5, 100⟩ 150 86400 10 (by decide) rfl).1 (by decide)

namespace F64

theorem floorLog2_eq (q : ℚ) :
    floorLog2 q =
      if (2 : ℚ) ^ ((Nat.log2 q.num.toNat : ℤ) - (Nat.log2 q.den : ℤ)) ≤ q
      then (Nat.log2 q.num.toNat : ℤ) - (Nat.log2 q.den : ℤ)
      else (Nat.log2 q.num.toNat : ℤ) - (Nat.log2 q.den : ℤ) - 1 := rfl

/-- Correctness of the binary-exponent computation: for positive `q`,
`2 ^ floorLog2 q ≤ q < 2 ^ (floorLog2 q + 1)`. -/
theorem floorLog2_spec (q : ℚ) (hq : 0 < q) :
    (2 : ℚ) ^ floorLog2 q ≤ q ∧ q < (2 : ℚ) ^ (floorLog2 q + 1) := by
  have hnum : (0 : ℤ) < q.num := Rat.num_pos.mpr hq
  rw [floorLog2_eq]
  set a : ℕ := q.num.toNat with ha_def
  set b : ℕ := q.den with hb_def
  set la : ℕ := Nat.log2 a with hla_def
  set lb : ℕ := Nat.log2 b with hlb_def
  have ha : ((a : ℤ)) = q.num := Int.toNat_of_nonneg (le_of_lt hnum)
  have ha0 : a ≠ 0 := by omega
  have hb0 : b ≠ 0 := q.den_nz
  have haQ : (0 : ℚ) < (a : ℚ) := by
    exact_mod_cast Nat.pos_of_ne_zero ha0
  have hbQ : (0 : ℚ) < (b : ℚ) := by
    exact_mod_cast Nat.pos_of_ne_zero hb0
  have hq_eq : q = (a : ℚ) / (b : ℚ) := by
    rw [hb_def]
    conv_lhs => rw [← Rat.num_div_den q]
    rw [← ha]
    push_cast
    ring
  have hA1 : (2 : ℚ) ^ la ≤ (a : ℚ) := by
    exact_mod_cast Nat.log2_self_le ha0
  have hA2 : (a : ℚ) < 2 ^ (la + 1) := by
    exact_mod_cast @Nat.lt_log2_self a
  have hB1 : (2 : ℚ) ^ lb ≤ (b : ℚ) := by
    exact_mod_cast Nat.log2_self_le hb0
  have hB2 : (b : ℚ) < 2 ^ (lb + 1) := by
    exact_mod_cast @Nat.lt_log2_self b
  have hk1 : q < (2 : ℚ) ^ (((la : ℤ) - (lb : ℤ)) + 1) := by
    have hpow : (2 : ℚ) ^ (((la : ℤ) - (lb : ℤ)) + 1)
        = (2 : ℚ) ^ (la + 1) / (2 : ℚ) ^ lb := by
      have hk : ((la : ℤ) - (lb : ℤ)) + 1 = ((la + 1 : ℕ) : ℤ) - ((lb : ℕ) : ℤ) := by
        push_cast
        ring
      rw [hk, zpow_sub₀ (two_ne_zero), zpow_natCast, zpow_natCast]
    rw [hq_eq, hpow, div_lt_div_iff₀ hbQ (by positivity)]
    calc (a : ℚ) * 2 ^ lb
        < 2 ^ (la + 1) * 2 ^ lb := mul_lt_mul_of_pos_right hA2 (by positivity)
      _ ≤ 2 ^ (la + 1) * (b : ℚ) := mul_le_mul_of_nonneg_left hB1 (by positivity)
  have hk2 : (2 : ℚ) ^ (((la : ℤ) - (lb : ℤ)) - 1) < q := by
    have hpow : (2 : ℚ) ^ (((la : ℤ) - (lb : ℤ)) - 1)
        = (2 : ℚ) ^ la / (2 : ℚ) ^ (lb + 1) := by
      have hk : ((la : ℤ) - (lb : ℤ)) - 1 = ((la : ℕ) : ℤ) - ((lb + 1 : ℕ) : ℤ) := by
        push_cast
        ring
      rw [hk, zpow_sub₀ (two_ne_zero), zpow_natCast, zpow_natCast]
    rw [hq_eq, hpow, div_lt_div_iff₀ (by positivity) hbQ]
    calc (2 : ℚ) ^ la * (b : ℚ)
        < 2 ^ la * 2 ^ (lb + 1) := mul_lt_mul_of_pos_left hB2 (by positivity)
      _ ≤ (a : ℚ) * 2 ^ (lb + 1) := mul_le_mul_of_nonneg_right hA1 (by positivity)
  split_ifs with hcase
  · exact ⟨hcase, hk1⟩
  · constructor
    · exact le_of_lt hk2
    · have hs : ((la : ℤ) - (lb : ℤ)) - 1 + 1 = (la : ℤ) - (lb : ℤ) := by ring
      rw [hs]
      exact lt_of_not_le hcase

/-- The binary exponent is determined by the sandwich property, which lets
concrete evaluations avoid computing `Nat.log2`. -/
theorem floorLog2_unique (q : ℚ) (e : ℤ) (hq : 0 < q)
    (h1 : (2 : ℚ) ^ e ≤ q) (h2 : q < (2 : ℚ) ^ (e + 1)) : floorLog2 q = e := by
  obtain ⟨hs1, hs2⟩ := floorLog2_spec q hq
  by_contra hne
  rcases lt_or_gt_of_ne hne with hlt | hgt
  · have h : (2 : ℚ) ^ (floorLog2 q + 1) ≤ 2 ^ e :=
      zpow_le_zpow_right₀ one_le_two (by omega)
    linarith
  · have h : (2 : ℚ) ^ (e + 1) ≤ 2 ^ floorLog2 q :=
      zpow_le_zpow_right₀ one_le_two (by omega)
    linarith

/-- Rounding to the nearest integer moves a value by at most 1/2. -/
theorem roundHalfEven_bounds (q : ℚ) :
    q - 1 / 2 ≤ (roundHalfEven q : ℚ) ∧ (roundHalfEven q : ℚ) ≤ q + 1 / 2 := by
  have hA : ((⌊q⌋ : ℤ) : ℚ) ≤ q := Int.floor_le q
  have hB : q < ⌊q⌋ + 1 := Int.lt_floor_add_one q
  unfold roundHalfEven
  split_ifs with hc1 hc2 hc3 <;> refine ⟨?_, ?_⟩ <;> push_cast <;> linarith

/-- Rounding a positive rational to the binary64 grid moves it by at most half
an ulp, hence by at most `q / 2 ^ 52` (one part in 2^52). -/
theorem roundPos_bounds (q : ℚ) (hq : 0 < q) :
    q - q / 2 ^ 52 ≤ roundPos q ∧ roundPos q ≤ q + q / 2 ^ 52 := by
  obtain ⟨hs1, hs2⟩ := floorLog2_spec q hq
  set e : ℤ := floorLog2 q with he_def
  set g : ℚ := 2 ^ (e - 52) with hg_def
  have hgpos : (0 : ℚ) < g := zpow_pos (by norm_num) _
  obtain ⟨hr1, hr2⟩ := roundHalfEven_bounds (q / g)
  have hrp : roundPos q = (roundHalfEven (q / g) : ℚ) * g := rfl
  have hgle : g ≤ q / 2 ^ 52 := by
    rw [hg_def]
    have h1 : (2 : ℚ) ^ (e - 52) = 2 ^ e / 2 ^ (52 : ℕ) := by
      rw [zpow_sub₀ (two_ne_zero)]
      norm_num
    rw [h1]
    gcongr
  have hql : (q / g - 1 / 2) * g ≤ roundPos q := by
    rw [hrp]
    exact mul_le_mul_of_nonneg_right hr1 (le_of_lt hgpos)
  have hqu : roundPos q ≤ (q / g + 1 / 2) * g := by
    rw [hrp]
    exact mul_le_mul_of_nonneg_right hr2 (le_of_lt hgpos)
  have hlo : (q / g - 1 / 2) * g = q - g / 2 := by
    field_simp
    ring
  have hhi : (q / g + 1 / 2) * g = q + g / 2 := by
    field_simp
    ring
  constructor
  · rw [hlo] at hql
    have hnn : (0 : ℚ) ≤ q / 2 ^ 52 := by positivity
    linarith
  · rw [hhi] at hqu
    linarith

theorem roundDouble_eq_roundPos (q : ℚ) (hq : 0 < q) : roundDouble q = roundPos q := by
  unfold roundDouble
  rw [if_neg (ne_of_gt hq), if_pos hq]

theorem roundDouble_zero : roundDouble 0 = 0 := by
  unfold roundDouble
  rw [if_pos rfl]

/-- Relative-error bound for binary64 rounding of a nonnegative rational. -/
theorem roundDouble_bounds (q : ℚ) (hq : 0 ≤ q) :
    q - q / 2 ^ 52 ≤ roundDouble q ∧ roundDouble q ≤ q + q / 2 ^ 52 := by
  rcases eq_or_lt_of_le hq with h | h
  · rw [← h, roundDouble_zero]
    norm_num
  · rw [roundDouble_eq_roundPos q h]
    exact roundPos_bounds q h

theorem roundHalfEven_eval_lo (q : ℚ) (n : ℤ) (h1 : (n : ℚ) ≤ q) (h2 : q < n + 1 / 2) :
    roundHalfEven q = n := by
  have hf : ⌊q⌋ = n := Int.floor_eq_iff.mpr ⟨h1, by linarith⟩
  unfold roundHalfEven
  rw [hf, if_pos (by linarith)]

theorem roundHalfEven_eval_hi (q : ℚ) (n : ℤ) (h1 : (n : ℚ) + 1 / 2 < q) (h2 : q < n + 1) :
    roundHalfEven q = n + 1 := by
  have hf : ⌊q⌋ = n := Int.floor_eq_iff.mpr ⟨by linarith, by linarith⟩
  unfold roundHalfEven
  rw [hf, if_neg (by linarith), if_pos (by linarith)]

theorem roundPos_eval_lo (q : ℚ) (e n : ℤ) (hq : 0 < q)
    (h1 : (2 : ℚ) ^ e ≤ q) (h2 : q < (2 : ℚ) ^ (e + 1))
    (h3 : (n : ℚ) ≤ q / 2 ^ (e - 52)) (h4 : q / 2 ^ (e - 52) < n + 1 / 2) :
    roundPos q = n * 2 ^ (e - 52) := by
  unfold roundPos
  rw [floorLog2_unique q e hq h1 h2, roundHalfEven_eval_lo _ n h3 h4]

theorem roundPos_eval_hi (q : ℚ) (e n : ℤ) (hq : 0 < q)
    (h1 : (2 : ℚ) ^ e ≤ q) (h2 : q < (2 : ℚ) ^ (e + 1))
    (h3 : (n : ℚ) + 1 / 2 < q / 2 ^ (e - 52)) (h4 : q / 2 ^ (e - 52) < n + 1) :
    roundPos q = (n + 1) * 2 ^ (e - 52) := by
  unfold roundPos
  rw [floorLog2_unique q e hq h1 h2, roundHalfEven_eval_hi _ n h3 h4]
  push_cast
  ring

end F64

namespace App

open F64

/-- Bounds for the credited amount: the int-to-float conversions are exact for
sizes below 2^50 and the two roundings each move the value by at most one part
in 2^52, so the truncated product never exceeds `size` and the credit stays in
`[0, size]`. -/
theorem buy_balance_credit_bounds (size d : ℤ)
    (hs0 : 0 ≤ size) (hs1 : size < 2 ^ 50) (hd0 : 0 ≤ d) (hd1 : d ≤ 100) :
    0 ≤ buy_balance_credit size d ∧ buy_balance_credit size d ≤ size := by
  set q1 : ℚ := ((d : ℤ) : ℚ) / ((100 : ℤ) : ℚ) with hq1_def
  have hdQ : (0 : ℚ) ≤ ((d : ℤ) : ℚ) := by exact_mod_cast hd0
  have hq1a : (0 : ℚ) ≤ q1 := by
    rw [hq1_def]
    positivity
  have hq1b : q1 ≤ 1 := by
    rw [hq1_def]
    have hc : ((100 : ℤ) : ℚ) = (100 : ℚ) := by norm_num
    rw [hc, div_le_one (by norm_num)]
    exact_mod_cast hd1
  set t : ℚ := F64.pyDiv d 100 with ht_def
  have htr : t = F64.roundDouble q1 := rfl
  obtain ⟨ht1, ht2⟩ := F64.roundDouble_bounds q1 hq1a
  rw [← htr] at ht1 ht2
  have ht0 : (0 : ℚ) ≤ t := by linarith
  have htub : t ≤ 1 + 1 / 2 ^ 52 := by linarith
  set P : ℚ := ((size : ℤ) : ℚ) * t with hP_def
  have hszQ0 : (0 : ℚ) ≤ ((size : ℤ) : ℚ) := by exact_mod_cast hs0
  have hszQ1 : ((size : ℤ) : ℚ) < 2 ^ 50 := by exact_mod_cast hs1
  have hP0 : (0 : ℚ) ≤ P := mul_nonneg hszQ0 ht0
  have hPub : P ≤ ((size : ℤ) : ℚ) * (1 + 1 / 2 ^ 52) := by
    rw [hP_def]
    exact mul_le_mul_of_nonneg_left htub hszQ0
  set M : ℚ := F64.pyMul size t with hM_def
  have hMr : M = F64.roundDouble P := rfl
  obtain ⟨hM1, hM2⟩ := F64.roundDouble_bounds P hP0
  rw [← hMr] at hM1 hM2
  have hM0 : (0 : ℚ) ≤ M := by linarith
  have hMub : M < ((size : ℤ) : ℚ) + 1 := by linarith
  have hfloor_ub : ⌊M⌋ ≤ size := by
    have hlt : M < ((size + 1 : ℤ) : ℚ) := by push_cast; linarith
    have h2 : ⌊M⌋ < size + 1 := Int.floor_lt.mpr hlt
    omega
  have hfloor_lb : (0 : ℤ) ≤ ⌊M⌋ := Int.floor_nonneg.mpr hM0
  have hedef : buy_balance_credit size d = size - ⌊M⌋ := rfl
  rw [hedef]
  omega

/-- Evaluation of the credit computation at pack size 100, discount 29: the
binary64 value of 29/100 is 5224175567749775/2^54, a hair below 29/100; the
product with 100 rounds to 8162774324609023/2^48 = 29 - 2^-48; truncation
yields 28 and the credit is 72. -/
theorem buy_balance_credit_eval_100_29 : buy_balance_credit 100 29 = 72 := by
  have ht : pyDiv 29 100 = (5224175567749775 : ℚ) * 2 ^ ((-2 : ℤ) - 52) := by
    unfold pyDiv
    rw [roundDouble_eq_roundPos _ (by norm_num)]
    exact roundPos_eval_lo _ (-2) 5224175567749775 (by norm_num) (by norm_num) (by norm_num)
      (by norm_num) (by norm_num)
  have hM : pyMul 100 ((5224175567749775 : ℚ) * 2 ^ ((-2 : ℤ) - 52))
      = (8162774324609023 : ℚ) * 2 ^ ((4 : ℤ) - 52) := by
    unfold pyMul
    rw [roundDouble_eq_roundPos _ (by norm_num)]
    exact roundPos_eval_lo _ 4 8162774324609023 (by norm_num) (by norm_num) (by norm_num)
      (by norm_num) (by norm_num)
  have hfl : ⌊(8162774324609023 : ℚ) * 2 ^ ((4 : ℤ) - 52)⌋ = 28 := by
    rw [Int.floor_eq_iff]
    constructor <;> norm_num
  unfold buy_balance_credit
  rw [ht, hM, hfl]
  decide

/-- Evaluation at pack size 100, discount 10: the binary64 value of 10/100 is
7205759403792794/2^56, a hair above 1/10; the product with 100 rounds to
exactly 10, truncation yields 10 and the credit is 90. -/
theorem buy_balance_credit_eval_100_10 : buy_balance_credit 100 10 = 90 := by
  have ht : pyDiv 10 100 = (7205759403792794 : ℚ) * 2 ^ ((-4 : ℤ) - 52) := by
    unfold pyDiv
    rw [roundDouble_eq_roundPos _ (by norm_num)]
    have h := roundPos_eval_hi (((10 : ℤ) : ℚ) / ((100 : ℤ) : ℚ)) (-4) 7205759403792793
      (by norm_num) (by norm_num) (by norm_num) (by norm_num) (by norm_num)
    rw [h]
    norm_num
  have hM : pyMul 100 ((7205759403792794 : ℚ) * 2 ^ ((-4 : ℤ) - 52))
      = (5629499534213120 : ℚ) * 2 ^ ((3 : ℤ) - 52) := by
    unfold pyMul
    rw [roundDouble_eq_roundPos _ (by norm_num)]
    exact roundPos_eval_lo _ 3 5629499534213120 (by norm_num) (by norm_num) (by norm_num)
      (by norm_num) (by norm_num)
  have hfl : ⌊(5629499534213120 : ℚ) * 2 ^ ((3 : ℤ) - 52)⌋ = 10 := by
    rw [Int.floor_eq_iff]
    constructor <;> norm_num
  unfold buy_balance_credit
  rw [ht, hM, hfl]
  decide

end App

/-- Claim C5 counterexample: at pack size 100 and discount 29 the code credits
`100 - int(100 * (29 / 100)) = 72` — Python's `29 / 100` rounds to a binary64
value just below 29/100, so the truncated product is 28 rather than 29 — while
the claimed formula `size - floor(size * discountPercent / 100)` gives 71.
The claim is therefore false at (size 100, discount 29). -/
theorem C5_counterexample :
    App.buy_balance_credit 100 29 = 72 ∧ (100 : ℤ) - 100 * 29 / 100 = 71 :=
  ⟨App.buy_balance_credit_eval_100_29, by decide⟩

/-- Claim C5 (amended): the credited amount is
`size - trunc(float64(size) * float64(discountPercent / 100))` computed in
binary64 arithmetic, which can exceed `size - floor(size * discountPercent / 100)`
by one when `discountPercent / 100` rounds downward; for every size in
`[0, 2^50)` and every discountPercent in `[0, 100]` it is never below 0 (and
never above size); a pack of size 100 with a 10 percent discount credits
exactly 90. -/
theorem C5_amended_buy_balance_credit (size d : ℤ)
    (hs0 : 0 ≤ size) (hs1 : size < 2 ^ 50) (hd0 : 0 ≤ d) (hd1 : d ≤ 100) :
    (0 ≤ App.buy_balance_credit size d ∧ App.buy_balance_credit size d ≤ size) ∧
    App.buy_balance_credit 100 10 = 90 :=
  ⟨App.buy_balance_credit_bounds size d hs0 hs1 hd0 hd1,
   App.buy_balance_credit_eval_100_10⟩

theorem C5_amended_buy_balance_credit_witness :
    (0 ≤ App.buy_balance_credit 100 10 ∧ App.buy_balance_credit 100 10 ≤ 100) ∧
    App.buy_balance_credit 100 10 = 90 :=
  C5_amended_buy_balance_credit 100 10 (by decide) (by decide) (by decide) (by decide)
